import Mathlib

/-!
# Verification of `TurnoverPlumeRelations.py`

Shallow embedding of the numeric core of
`EBB/Biomass/Analysis/Plotting/TurnoverPlumeRelations.py`
(Higgins et al. 2024 Enceladus biomass/biosignature analysis).

The Python code works with IEEE doubles and `ufloat` values from the
`uncertainties` package.  We model a Python float as either a rational
number or the not-a-number value `nan` (the script never produces
infinities on the paths considered here; division by an exact zero, which
would raise `ZeroDivisionError` in Python, is mapped to `nan`).  A
`ufloat` is a pair of such values: a nominal value `n` and a standard
deviation `s`.  The `uncertainties` package propagates deviations
linearly: for a scalar `c`, `(x ± s) * c = x*c ± |s*c|` and
`(x ± s) / c = x/c ± |s/c|`, while adding/subtracting an exact scalar
leaves the deviation unchanged.
-/

/-- A Python float: either not-a-number or an exact rational value. -/
inductive Fl where
  | nan : Fl
  | val : ℚ → Fl
deriving DecidableEq

namespace Fl

/-- Python float addition; `nan` propagates. -/
def add : Fl → Fl → Fl
  | val a, val b => val (a + b)
  | _, _ => nan

/-- Python float subtraction; `nan` propagates. -/
def sub : Fl → Fl → Fl
  | val a, val b => val (a - b)
  | _, _ => nan

/-- Python float multiplication; `nan` propagates. -/
def mul : Fl → Fl → Fl
  | val a, val b => val (a * b)
  | _, _ => nan

/-- Python float division; `nan` propagates.  Division by an exact zero
raises `ZeroDivisionError` in Python; we map it to `nan` (no claim
exercises that case). -/
def div : Fl → Fl → Fl
  | val a, val b => if b = 0 then nan else val (a / b)
  | _, _ => nan

/-- Python float negation; `nan` propagates. -/
def neg : Fl → Fl
  | val a => val (-a)
  | _ => nan

/-- Python `abs`; `nan` propagates. -/
def abs : Fl → Fl
  | val a => val |a|
  | _ => nan

/-- Python `<` comparison: any comparison involving `nan` is `False`. -/
def lt : Fl → Fl → Bool
  | val a, val b => decide (a < b)
  | _, _ => false

end Fl

/-- Python `max(a, b)`: keeps the first argument unless the second is
strictly greater (so `max(nan, x) = nan` and `max(x, nan) = x`). -/
def pymax (a b : Fl) : Fl := if Fl.lt a b then b else a

/-- Python `min(a, b)`: keeps the first argument unless the second is
strictly smaller (so `min(nan, x) = nan` and `min(x, nan) = x`). -/
def pymin (a b : Fl) : Fl := if Fl.lt b a then b else a

/-- A `ufloat` from the `uncertainties` package: nominal value `n` and
standard deviation `s` (attributes `.n` and `.s` in Python). -/
structure UF where
  n : Fl
  s : Fl
deriving DecidableEq

/-- The `ufloat` constructor `uf(n, s)` (the script imports
`from uncertainties import ufloat as uf`). -/
def uf (n s : Fl) : UF := ⟨n, s⟩

/-- The sentinel `uf(np.nan, np.nan)` returned for inconsistent inputs. -/
def nanUF : UF := uf Fl.nan Fl.nan

namespace UF

/-- `u / c` for a `ufloat` `u` and exact scalar `c`: linear propagation
gives deviation `|s / c|`. -/
def divC (u : UF) (c : Fl) : UF := ⟨Fl.div u.n c, Fl.abs (Fl.div u.s c)⟩

/-- `u * c` for a `ufloat` `u` and exact scalar `c`: linear propagation
gives deviation `|s * c|`. -/
def mulC (u : UF) (c : Fl) : UF := ⟨Fl.mul u.n c, Fl.abs (Fl.mul u.s c)⟩

/-- `c + u` for an exact scalar `c` and `ufloat` `u`: deviation unchanged. -/
def addL (c : Fl) (u : UF) : UF := ⟨Fl.add c u.n, u.s⟩

/-- `u - c` for a `ufloat` `u` and exact scalar `c`: deviation unchanged. -/
def subC (u : UF) (c : Fl) : UF := ⟨Fl.sub u.n c, u.s⟩

/-- `abs(u)` for a `ufloat` `u`: nominal `|n|`, deviation unchanged
(linear propagation through `x ↦ |x|`, whose derivative has modulus 1). -/
def abs (u : UF) : UF := ⟨Fl.abs u.n, u.s⟩

end UF

/-- `get_H2_bio(H2_in, R_abb, R_p)` from the script, in the scalar case:
`return -H2_in / (1+(0.25*R_p*(1+R_abb)))`. -/
def get_H2_bio (H2_in R_abb R_p : ℚ) : ℚ :=
  -H2_in / (1 + (0.25 * R_p * (1 + R_abb)))

/-- `get_H2_bio(H2_in, R_abb, R_p)` as invoked by the figure routines,
where `H2_in` and `R_abb` are floats and `R_p` is the `ufloat`
`R_H2toCH4`.  The `uncertainties` package propagates the deviation of
`R_p` linearly through `f(x) = -H2_in/(1+c*x)` with
`c = 0.25*(1+R_abb)`, i.e. the result deviation is
`|d f(R_p.n)| * R_p.s = |H2_in*c/(1+c*R_p.n)^2| * R_p.s`. -/
def get_H2_bio_u (H2_in R_abb : Fl) (R_p : UF) : UF :=
  let c := Fl.mul (Fl.val 0.25) (Fl.add (Fl.val 1) R_abb)
  let den := Fl.add (Fl.val 1) (Fl.mul c R_p.n)
  ⟨Fl.div (Fl.neg H2_in) den,
   Fl.mul (Fl.abs (Fl.div (Fl.mul H2_in c) (Fl.mul den den))) R_p.s⟩

/-- The local `M_out = (H_b / R_b) * (1+R_abb)` of `Mp_consistency`. -/
def Mp_Mout (H_b : UF) (R_b R_abb : Fl) : UF :=
  (H_b.divC R_b).mulC (Fl.add (Fl.val 1) R_abb)

/-- The local `b = max(bottoms, bottomM)` of `Mp_consistency`, where
`bottoms = M_out.n - M_out.s` and `bottomM = -(M_p.n) - M_p.s`. -/
def Mp_b (M_p H_b : UF) (R_b R_abb : Fl) : Fl :=
  pymax (Fl.sub (Mp_Mout H_b R_b R_abb).n (Mp_Mout H_b R_b R_abb).s)
    (Fl.sub (Fl.neg M_p.n) M_p.s)

/-- The local `t = min(tops, topM)` of `Mp_consistency`, where
`tops = M_out.n + M_out.s` and `topM = -(M_p.n) + M_p.s`. -/
def Mp_t (M_p H_b : UF) (R_b R_abb : Fl) : Fl :=
  pymin (Fl.add (Mp_Mout H_b R_b R_abb).n (Mp_Mout H_b R_b R_abb).s)
    (Fl.add (Fl.neg M_p.n) M_p.s)

/-- The local `consistentM = uf(nom, abs(nom-b))` of `Mp_consistency`,
with `nom = (b+t)/2`. -/
def Mp_consistentM (M_p H_b : UF) (R_b R_abb : Fl) : UF :=
  let b := Mp_b M_p H_b R_b R_abb
  let t := Mp_t M_p H_b R_b R_abb
  let nom := Fl.div (Fl.add b t) (Fl.val 2)
  ⟨nom, Fl.abs (Fl.sub nom b)⟩

/-- `Mp_consistency(M_p, H_b, R_b, R_abb)` from the script: checks the
methane plume observation `M_p` against the methane generated by the
bio H2 flux `H_b`; on overlap returns
`consistentH = consistentM * R_b / (1+R_abb)`, else `uf(np.nan, np.nan)`. -/
def Mp_consistency (M_p H_b : UF) (R_b R_abb : Fl) : UF :=
  if Fl.lt (Mp_b M_p H_b R_b R_abb) (Mp_t M_p H_b R_b R_abb) then
    ((Mp_consistentM M_p H_b R_b R_abb).mulC R_b).divC (Fl.add (Fl.val 1) R_abb)
  else uf Fl.nan Fl.nan

/-- The local `H_est = H2in + H_b` of `Hp_consistency`. -/
def Hp_Hest (H2in : Fl) (H_b : UF) : UF := UF.addL H2in H_b

/-- The local `b = max(bottoms, bottomM)` of `Hp_consistency`. -/
def Hp_b (H2in : Fl) (H_b H_p : UF) : Fl :=
  pymax (Fl.sub (Hp_Hest H2in H_b).n (Hp_Hest H2in H_b).s)
    (Fl.sub (Fl.neg H_p.n) H_p.s)

/-- The local `t = min(tops, topM)` of `Hp_consistency`. -/
def Hp_t (H2in : Fl) (H_b H_p : UF) : Fl :=
  pymin (Fl.add (Hp_Hest H2in H_b).n (Hp_Hest H2in H_b).s)
    (Fl.add (Fl.neg H_p.n) H_p.s)

/-- The merged value `uf(nom, abs(nom-b))` of `Hp_consistency`, with
`nom = (b+t)/2` (before the final `- H2in`). -/
def Hp_merged (H2in : Fl) (H_b H_p : UF) : UF :=
  let b := Hp_b H2in H_b H_p
  let t := Hp_t H2in H_b H_p
  let nom := Fl.div (Fl.add b t) (Fl.val 2)
  ⟨nom, Fl.abs (Fl.sub nom b)⟩

/-- `Hp_consistency(H2in, H_b, H_p)` from the script: checks
`H2in + H_b + H_p = 0` within uncertainties; on overlap returns
`uf(nom, abs(nom-b)) - H2in`, else `uf(np.nan, np.nan)`. -/
def Hp_consistency (H2in : Fl) (H_b H_p : UF) : UF :=
  if Fl.lt (Hp_b H2in H_b H_p) (Hp_t H2in H_b H_p) then
    (Hp_merged H2in H_b H_p).subC H2in
  else uf Fl.nan Fl.nan

/-- `criticalH2bio(H2p, R_H2toCH4, R_abb, R_b=-4.)` from the script, in
the scalar case: `return H2p*R_b/(R_H2toCH4*(1+R_abb))`. -/
def criticalH2bio (H2p R_H2toCH4 R_abb : ℚ) (R_b : ℚ := -4) : ℚ :=
  H2p * R_b / (R_H2toCH4 * (1 + R_abb))

/-- `np.linspace(a, b, num)` with default `endpoint=True`:
the list `a + i*(b-a)/(num-1)` for `i = 0, …, num-1`. -/
def linspace (a b : ℚ) (num : ℕ) : List ℚ :=
  (List.range num).map (fun (i : ℕ) => a + (b - a) * (i : ℚ) / ((num : ℚ) - 1))

/-- `np.logspace(e0, e1, num)` is `10**np.linspace(e0, e1, num)`; we
record the (rational) exponent grid, the values being `10^e` for each
exponent `e` in it. -/
def logspaceExp (e0 e1 : ℚ) (num : ℕ) : List ℚ := linspace e0 e1 num

/-- Exponent grid of `H2in = np.logspace(-5, 5, num=10000)` used by both
`Fig5_BiomassTurnover_vs_abiobioratio` and
`FigS4_Specific_abio_bio_ratio_H2flux`. -/
def fig5H2inExp : List ℚ := logspaceExp (-5) 5 10000

/-- Exponent grid of `R_abbvals = np.logspace(-6, 6, num=100)` used by
`Fig5_BiomassTurnover_vs_abiobioratio`. -/
def fig5RabbExp : List ℚ := logspaceExp (-6) 6 100

/-- `R_abbvals = [0.,1.,100.]` of `FigS4_Specific_abio_bio_ratio_H2flux`. -/
def figS4Rabbvals : List ℚ := [0, 1, 100]

/-- One row of the grid sweep shared by the two figure routines
(`Fig5_BiomassTurnover_vs_abiobioratio` lines 165–172 and
`FigS4_Specific_abio_bio_ratio_H2flux` lines 452–454): for a fixed
abio:bio ratio `R_abb`, map `get_H2_bio` over the `H2in` axis, then
`Mp_consistency` over the results, then `abs(Hp_consistency(...))`
pairing each result back with its `H2in` value. -/
def figRow (CH4p H2pobs R_H2toCH4 : UF) (R_bio R_abb : Fl)
    (H2in : List Fl) : List UF :=
  let H2bio := H2in.map (fun h => get_H2_bio_u h R_abb R_H2toCH4)
  let H2bio2 := H2bio.map (fun hb => Mp_consistency CH4p hb R_bio R_abb)
  (H2bio2.zip H2in).map (fun p => (Hp_consistency p.2 p.1 H2pobs).abs)

@[simp] theorem Fl.add_val (a b : ℚ) : Fl.add (Fl.val a) (Fl.val b) = Fl.val (a + b) := rfl

@[simp] theorem Fl.sub_val (a b : ℚ) : Fl.sub (Fl.val a) (Fl.val b) = Fl.val (a - b) := rfl

@[simp] theorem Fl.mul_val (a b : ℚ) : Fl.mul (Fl.val a) (Fl.val b) = Fl.val (a * b) := rfl

@[simp] theorem Fl.neg_val (a : ℚ) : Fl.neg (Fl.val a) = Fl.val (-a) := rfl

@[simp] theorem Fl.abs_val (a : ℚ) : Fl.abs (Fl.val a) = Fl.val |a| := rfl

theorem Fl.div_val {b : ℚ} (a : ℚ) (hb : b ≠ 0) :
    Fl.div (Fl.val a) (Fl.val b) = Fl.val (a / b) := by
  simp [Fl.div, hb]

@[simp] theorem Fl.lt_val (a b : ℚ) : Fl.lt (Fl.val a) (Fl.val b) = decide (a < b) := rfl

@[simp] theorem uf_n (n s : Fl) : (uf n s).n = n := rfl

@[simp] theorem uf_s (n s : Fl) : (uf n s).s = s := rfl

@[simp] theorem pymax_val (a b : ℚ) :
    pymax (Fl.val a) (Fl.val b) = Fl.val (max a b) := by
  by_cases h : a < b
  · simp [pymax, h, max_eq_right h.le]
  · simp [pymax, h, max_eq_left (le_of_not_lt h)]

@[simp] theorem pymin_val (a b : ℚ) :
    pymin (Fl.val a) (Fl.val b) = Fl.val (min a b) := by
  by_cases h : b < a
  · simp [pymin, h, min_eq_right h.le]
  · simp [pymin, h, min_eq_left (le_of_not_lt h)]

theorem linspace_length (a b : ℚ) (num : ℕ) :
    (linspace a b num).length = num := by
  rw [linspace, List.length_map, List.length_range]

theorem linspace_get (a b : ℚ) (num i : ℕ) (h : i < num) :
    (linspace a b num).get
        ⟨i, by rw [linspace_length] ; exact h⟩ =
      a + (b - a) * i / ((num : ℚ) - 1) := by
  simp only [linspace, List.get_eq_getElem, List.getElem_map, List.getElem_range]

/-- Value of `M_out` on exact (non-`nan`) inputs with `R_b ≠ 0`. -/
theorem Mp_Mout_val (Hbn Hbs Rb Rabb : ℚ) (hRb : Rb ≠ 0) :
    Mp_Mout (uf (Fl.val Hbn) (Fl.val Hbs)) (Fl.val Rb) (Fl.val Rabb) =
      uf (Fl.val (Hbn / Rb * (1 + Rabb))) (Fl.val |Hbs / Rb * (1 + Rabb)|) := by
  simp [Mp_Mout, UF.divC, UF.mulC, Fl.div_val _ hRb, abs_mul, abs_abs, uf]

/-- Value of the local `b` of `Mp_consistency` on exact inputs. -/
theorem Mp_b_val (Mpn Mps Hbn Hbs Rb Rabb : ℚ) (hRb : Rb ≠ 0) :
    Mp_b (uf (Fl.val Mpn) (Fl.val Mps)) (uf (Fl.val Hbn) (Fl.val Hbs))
        (Fl.val Rb) (Fl.val Rabb) =
      Fl.val (max (Hbn / Rb * (1 + Rabb) - |Hbs / Rb * (1 + Rabb)|)
        (-Mpn - Mps)) := by
  simp [Mp_b, Mp_Mout_val _ _ _ _ hRb]

/-- Value of the local `t` of `Mp_consistency` on exact inputs. -/
theorem Mp_t_val (Mpn Mps Hbn Hbs Rb Rabb : ℚ) (hRb : Rb ≠ 0) :
    Mp_t (uf (Fl.val Mpn) (Fl.val Mps)) (uf (Fl.val Hbn) (Fl.val Hbs))
        (Fl.val Rb) (Fl.val Rabb) =
      Fl.val (min (Hbn / Rb * (1 + Rabb) + |Hbs / Rb * (1 + Rabb)|)
        (-Mpn + Mps)) := by
  simp [Mp_t, Mp_Mout_val _ _ _ _ hRb]

/-- Value of the local `b` of `Hp_consistency` on exact inputs. -/
theorem Hp_b_val (H2in Hbn Hbs Hpn Hps : ℚ) :
    Hp_b (Fl.val H2in) (uf (Fl.val Hbn) (Fl.val Hbs))
        (uf (Fl.val Hpn) (Fl.val Hps)) =
      Fl.val (max (H2in + Hbn - Hbs) (-Hpn - Hps)) := by
  simp [Hp_b, Hp_Hest, UF.addL]

/-- Value of the local `t` of `Hp_consistency` on exact inputs. -/
theorem Hp_t_val (H2in Hbn Hbs Hpn Hps : ℚ) :
    Hp_t (Fl.val H2in) (uf (Fl.val Hbn) (Fl.val Hbs))
        (uf (Fl.val Hpn) (Fl.val Hps)) =
      Fl.val (min (H2in + Hbn + Hbs) (-Hpn + Hps)) := by
  simp [Hp_t, Hp_Hest, UF.addL]

/-- Value of `consistentM` of `Mp_consistency` on exact inputs. -/
theorem Mp_consistentM_val (Mpn Mps Hbn Hbs Rb Rabb B T : ℚ) (hRb : Rb ≠ 0)
    (hB : B = max (Hbn / Rb * (1 + Rabb) - |Hbs / Rb * (1 + Rabb)|) (-Mpn - Mps))
    (hT : T = min (Hbn / Rb * (1 + Rabb) + |Hbs / Rb * (1 + Rabb)|) (-Mpn + Mps)) :
    Mp_consistentM (uf (Fl.val Mpn) (Fl.val Mps)) (uf (Fl.val Hbn) (Fl.val Hbs))
        (Fl.val Rb) (Fl.val Rabb) =
      uf (Fl.val ((B + T) / 2)) (Fl.val |(B + T) / 2 - B|) := by
  subst hB hT
  rw [Mp_consistentM, Mp_b_val _ _ _ _ _ _ hRb, Mp_t_val _ _ _ _ _ _ hRb]
  simp [Fl.div_val _ (two_ne_zero (α := ℚ)), uf]

/-- Value of the merged `ufloat` of `Hp_consistency` on exact inputs. -/
theorem Hp_merged_val (H2in Hbn Hbs Hpn Hps B T : ℚ)
    (hB : B = max (H2in + Hbn - Hbs) (-Hpn - Hps))
    (hT : T = min (H2in + Hbn + Hbs) (-Hpn + Hps)) :
    Hp_merged (Fl.val H2in) (uf (Fl.val Hbn) (Fl.val Hbs))
        (uf (Fl.val Hpn) (Fl.val Hps)) =
      uf (Fl.val ((B + T) / 2)) (Fl.val |(B + T) / 2 - B|) := by
  subst hB hT
  rw [Hp_merged, Hp_b_val, Hp_t_val]
  simp [Fl.div_val _ (two_ne_zero (α := ℚ)), uf]

/-- Raw value of `Mp_consistency` on the overlap branch. -/
theorem Mp_consistency_overlap (Mpn Mps Hbn Hbs Rb Rabb B T : ℚ) (hRb : Rb ≠ 0)
    (hRabb : 1 + Rabb ≠ 0)
    (hB : B = max (Hbn / Rb * (1 + Rabb) - |Hbs / Rb * (1 + Rabb)|) (-Mpn - Mps))
    (hT : T = min (Hbn / Rb * (1 + Rabb) + |Hbs / Rb * (1 + Rabb)|) (-Mpn + Mps))
    (hBT : B < T) :
    Mp_consistency (uf (Fl.val Mpn) (Fl.val Mps)) (uf (Fl.val Hbn) (Fl.val Hbs))
        (Fl.val Rb) (Fl.val Rabb) =
      uf (Fl.val ((B + T) / 2 * Rb / (1 + Rabb)))
        (Fl.val (|(B + T) / 2 - B| * |Rb| / |1 + Rabb|)) := by
  rw [Mp_consistency, Mp_b_val _ _ _ _ _ _ hRb, Mp_t_val _ _ _ _ _ _ hRb,
    Mp_consistentM_val Mpn Mps Hbn Hbs Rb Rabb B T hRb hB hT]
  rw [← hB, ← hT]
  simp only [Fl.lt_val, hBT, decide_eq_true_eq, if_true]
  simp [UF.mulC, UF.divC, Fl.div_val _ hRabb, abs_mul, abs_abs, abs_div, uf]

/-- Raw value of `Hp_consistency` on the overlap branch. -/
theorem Hp_consistency_overlap (H2in Hbn Hbs Hpn Hps B T : ℚ)
    (hB : B = max (H2in + Hbn - Hbs) (-Hpn - Hps))
    (hT : T = min (H2in + Hbn + Hbs) (-Hpn + Hps))
    (hBT : B < T) :
    Hp_consistency (Fl.val H2in) (uf (Fl.val Hbn) (Fl.val Hbs))
        (uf (Fl.val Hpn) (Fl.val Hps)) =
      uf (Fl.val ((B + T) / 2 - H2in)) (Fl.val |(B + T) / 2 - B|) := by
  rw [Hp_consistency, Hp_b_val, Hp_t_val,
    Hp_merged_val H2in Hbn Hbs Hpn Hps B T hB hT]
  rw [← hB, ← hT]
  simp only [Fl.lt_val, hBT, decide_eq_true_eq, if_true]
  simp [UF.subC, uf]

/-- C1 (amended): each of `Mp_consistency` and `Hp_consistency` returns a
merged (non-sentinel) uncertain value exactly when the uncertainty band of
the derived estimate overlaps the band of the negated plume observation
with positive width (strictly: max of the lower ends < min of the upper
ends), and returns the sentinel `uf(NaN, NaN)` otherwise; bands that meet
only at a single point do not count as overlapping. -/
theorem claim1_overlap_strict_iff :
    (∀ Mpn Mps Hbn Hbs Rb Rabb : ℚ, Rb ≠ 0 → 1 + Rabb ≠ 0 →
      (Mp_consistency (uf (Fl.val Mpn) (Fl.val Mps)) (uf (Fl.val Hbn) (Fl.val Hbs))
          (Fl.val Rb) (Fl.val Rabb) ≠ nanUF ↔
        max (Hbn / Rb * (1 + Rabb) - |Hbs / Rb * (1 + Rabb)|) (-Mpn - Mps) <
          min (Hbn / Rb * (1 + Rabb) + |Hbs / Rb * (1 + Rabb)|) (-Mpn + Mps))) ∧
    (∀ H2in Hbn Hbs Hpn Hps : ℚ,
      (Hp_consistency (Fl.val H2in) (uf (Fl.val Hbn) (Fl.val Hbs))
          (uf (Fl.val Hpn) (Fl.val Hps)) ≠ nanUF ↔
        max (H2in + Hbn - Hbs) (-Hpn - Hps) <
          min (H2in + Hbn + Hbs) (-Hpn + Hps))) := by
  constructor
  · intro Mpn Mps Hbn Hbs Rb Rabb hRb hRabb
    by_cases hBT : max (Hbn / Rb * (1 + Rabb) - |Hbs / Rb * (1 + Rabb)|) (-Mpn - Mps) <
        min (Hbn / Rb * (1 + Rabb) + |Hbs / Rb * (1 + Rabb)|) (-Mpn + Mps)
    · rw [Mp_consistency_overlap Mpn Mps Hbn Hbs Rb Rabb _ _ hRb hRabb rfl rfl hBT]
      simp [hBT, uf, nanUF]
    · have hnan : Mp_consistency (uf (Fl.val Mpn) (Fl.val Mps))
          (uf (Fl.val Hbn) (Fl.val Hbs)) (Fl.val Rb) (Fl.val Rabb) = nanUF := by
        rw [Mp_consistency, Mp_b_val _ _ _ _ _ _ hRb, Mp_t_val _ _ _ _ _ _ hRb]
        simp only [Fl.lt_val, decide_eq_true_eq]
        rw [if_neg hBT]
        rfl
      simp [hnan, hBT]
  · intro H2in Hbn Hbs Hpn Hps
    by_cases hBT : max (H2in + Hbn - Hbs) (-Hpn - Hps) <
        min (H2in + Hbn + Hbs) (-Hpn + Hps)
    · rw [Hp_consistency_overlap H2in Hbn Hbs Hpn Hps _ _ rfl rfl hBT]
      simp [hBT, uf, nanUF]
    · have hnan : Hp_consistency (Fl.val H2in) (uf (Fl.val Hbn) (Fl.val Hbs))
          (uf (Fl.val Hpn) (Fl.val Hps)) = nanUF := by
        rw [Hp_consistency, Hp_b_val, Hp_t_val]
        simp only [Fl.lt_val, decide_eq_true_eq]
        rw [if_neg hBT]
        rfl
      simp [hnan, hBT]

/-- Witness for C1 at concrete inputs (`M_p = -2±1`, `H_b = 2±1`,
`R_b = 1`, `R_abb = 0`). -/
theorem claim1_witness :
    ((1 : ℚ) ≠ 0) ∧ ((1 : ℚ) + 0 ≠ 0) ∧
    (Mp_consistency (uf (Fl.val (-2)) (Fl.val 1)) (uf (Fl.val 2) (Fl.val 1))
        (Fl.val 1) (Fl.val 0) ≠ nanUF ↔
      max ((2 : ℚ) / 1 * (1 + 0) - |(1 : ℚ) / 1 * (1 + 0)|) (-(-2) - 1) <
        min ((2 : ℚ) / 1 * (1 + 0) + |(1 : ℚ) / 1 * (1 + 0)|) (-(-2) + 1)) :=
  ⟨by norm_num, by norm_num,
    claim1_overlap_strict_iff.1 (-2) 1 2 1 1 0 (by norm_num) (by norm_num)⟩

/-- Counterexample to C1 as stated: with `H_b = 2±1`, `R_b = 1`,
`R_abb = 0` the band of `M_out` is `[1, 3]`, and with `M_p = -1±0` the
band of the negated plume observation is `[1, 1]`; the closed bands meet
at the single point `1` (so the claim demands a merged value), yet
`Mp_consistency` returns the NaN sentinel. -/
theorem claim1_counterexample :
    max ((2 : ℚ) / 1 * (1 + 0) - |(1 : ℚ) / 1 * (1 + 0)|) (-(-1) - 0) ≤
      min ((2 : ℚ) / 1 * (1 + 0) + |(1 : ℚ) / 1 * (1 + 0)|) (-(-1) + 0) ∧
    Mp_consistency (uf (Fl.val (-1)) (Fl.val 0)) (uf (Fl.val 2) (Fl.val 1))
      (Fl.val 1) (Fl.val 0) = uf Fl.nan Fl.nan := by
  constructor
  · norm_num
  · rw [Mp_consistency, Mp_b_val _ _ _ _ _ _ (one_ne_zero (α := ℚ)),
      Mp_t_val _ _ _ _ _ _ (one_ne_zero (α := ℚ))]
    norm_num

/-- C2: whenever the band of `M_out` and the band of `-M_p` strictly
overlap in `[B, T]` with `B < T`, `Mp_consistency` returns the uncertain
value whose methane-space form has nominal `(B+T)/2` and deviation
`(T-B)/2`, converted back to H2 space by multiplying by `R_b/(1+R_abb)`
(which scales the nominal by `R_b/(1+R_abb)` and the deviation by its
modulus). -/
theorem claim2_Mp_merge_value :
    ∀ Mpn Mps Hbn Hbs Rb Rabb B T : ℚ, Rb ≠ 0 → 1 + Rabb ≠ 0 →
      B = max (Hbn / Rb * (1 + Rabb) - |Hbs / Rb * (1 + Rabb)|) (-Mpn - Mps) →
      T = min (Hbn / Rb * (1 + Rabb) + |Hbs / Rb * (1 + Rabb)|) (-Mpn + Mps) →
      B < T →
      Mp_consistency (uf (Fl.val Mpn) (Fl.val Mps)) (uf (Fl.val Hbn) (Fl.val Hbs))
          (Fl.val Rb) (Fl.val Rabb) =
        uf (Fl.val ((B + T) / 2 * (Rb / (1 + Rabb))))
          (Fl.val ((T - B) / 2 * |Rb / (1 + Rabb)|)) := by
  intro Mpn Mps Hbn Hbs Rb Rabb B T hRb hRabb hB hT hBT
  rw [Mp_consistency_overlap Mpn Mps Hbn Hbs Rb Rabb B T hRb hRabb hB hT hBT]
  have habs : |(B + T) / 2 - B| = (T - B) / 2 := by
    rw [abs_of_nonneg (by linarith)]
    ring
  rw [habs]
  simp [abs_div, mul_div_assoc]

/-- Witness for C2 at concrete inputs (`M_p = -2±1`, `H_b = 2±1`,
`R_b = 1`, `R_abb = 0`, overlap `[1, 3]`). -/
theorem claim2_witness :
    ((1 : ℚ) ≠ 0) ∧ ((1 : ℚ) + 0 ≠ 0) ∧
    ((1 : ℚ) = max ((2 : ℚ) / 1 * (1 + 0) - |(1 : ℚ) / 1 * (1 + 0)|) (-(-2) - 1)) ∧
    ((3 : ℚ) = min ((2 : ℚ) / 1 * (1 + 0) + |(1 : ℚ) / 1 * (1 + 0)|) (-(-2) + 1)) ∧
    ((1 : ℚ) < 3) ∧
    Mp_consistency (uf (Fl.val (-2)) (Fl.val 1)) (uf (Fl.val 2) (Fl.val 1))
        (Fl.val 1) (Fl.val 0) =
      uf (Fl.val (((1 : ℚ) + 3) / 2 * (1 / (1 + 0))))
        (Fl.val (((3 : ℚ) - 1) / 2 * |1 / (1 + 0)|)) :=
  ⟨by norm_num, by norm_num, by norm_num, by norm_num, by norm_num,
    claim2_Mp_merge_value (-2) 1 2 1 1 0 1 3 (by norm_num) (by norm_num)
      (by norm_num) (by norm_num) (by norm_num)⟩

/-- C3: whenever the band of `H_est = H2in + H_b` and the band of `-H_p`
strictly overlap in `[B, T]` with `B < T`, `Hp_consistency` returns the
uncertain value with nominal `(B+T)/2` and deviation `(T-B)/2`, minus
`H2in` (which shifts the nominal and leaves the deviation unchanged). -/
theorem claim3_Hp_merge_value :
    ∀ H2in Hbn Hbs Hpn Hps B T : ℚ,
      B = max (H2in + Hbn - Hbs) (-Hpn - Hps) →
      T = min (H2in + Hbn + Hbs) (-Hpn + Hps) →
      B < T →
      Hp_consistency (Fl.val H2in) (uf (Fl.val Hbn) (Fl.val Hbs))
          (uf (Fl.val Hpn) (Fl.val Hps)) =
        uf (Fl.val ((B + T) / 2 - H2in)) (Fl.val ((T - B) / 2)) := by
  intro H2in Hbn Hbs Hpn Hps B T hB hT hBT
  rw [Hp_consistency_overlap H2in Hbn Hbs Hpn Hps B T hB hT hBT]
  have habs : |(B + T) / 2 - B| = (T - B) / 2 := by
    rw [abs_of_nonneg (by linarith)]
    ring
  rw [habs]

/-- Witness for C3 at concrete inputs (`H2in = 0`, `H_b = 2±1`,
`H_p = -2±1`, overlap `[1, 3]`). -/
theorem claim3_witness :
    ((1 : ℚ) = max ((0 : ℚ) + 2 - 1) (-(-2) - 1)) ∧
    ((3 : ℚ) = min ((0 : ℚ) + 2 + 1) (-(-2) + 1)) ∧
    ((1 : ℚ) < 3) ∧
    Hp_consistency (Fl.val 0) (uf (Fl.val 2) (Fl.val 1))
        (uf (Fl.val (-2)) (Fl.val 1)) =
      uf (Fl.val (((1 : ℚ) + 3) / 2 - 0)) (Fl.val (((3 : ℚ) - 1) / 2)) :=
  ⟨by norm_num, by norm_num, by norm_num,
    claim3_Hp_merge_value 0 2 1 (-2) 1 1 3 (by norm_num) (by norm_num) (by norm_num)⟩

/-- C4: `get_H2_bio` returns exactly `-H2_in / (1 + 0.25*R_p*(1+R_abb))`,
a closed-form computation of its three arguments alone; equivalently,
whenever the denominator is nonzero the result times the denominator
recovers `-H2_in`. -/
theorem claim4_get_H2_bio_formula :
    ∀ H2_in R_abb R_p : ℚ,
      get_H2_bio H2_in R_abb R_p = -H2_in / (1 + 0.25 * R_p * (1 + R_abb)) ∧
      (1 + 0.25 * R_p * (1 + R_abb) ≠ 0 →
        get_H2_bio H2_in R_abb R_p * (1 + 0.25 * R_p * (1 + R_abb)) = -H2_in) := by
  intro H2_in R_abb R_p
  refine ⟨rfl, fun h => ?_⟩
  rw [get_H2_bio]
  exact div_mul_cancel₀ _ h

/-- Witness for C4 at `H2_in = 4`, `R_abb = 1`, `R_p = 2`. -/
theorem claim4_witness :
    ((1 : ℚ) + 0.25 * 2 * (1 + 1) ≠ 0) ∧
    get_H2_bio 4 1 2 * (1 + 0.25 * 2 * (1 + 1)) = -4 :=
  ⟨by norm_num, (claim4_get_H2_bio_formula 4 1 2).2 (by norm_num)⟩

/-- C5: `criticalH2bio` returns exactly `H2p*R_b/(R_H2toCH4*(1+R_abb))`,
with `R_b` defaulting to `-4` when not supplied. -/
theorem claim5_criticalH2bio_formula :
    ∀ H2p R_H2toCH4 R_abb R_b : ℚ,
      criticalH2bio H2p R_H2toCH4 R_abb R_b =
          H2p * R_b / (R_H2toCH4 * (1 + R_abb)) ∧
      criticalH2bio H2p R_H2toCH4 R_abb =
          H2p * (-4) / (R_H2toCH4 * (1 + R_abb)) :=
  fun _ _ _ _ => ⟨rfl, rfl⟩

/-- C8: the NaN sentinel propagates: for every exact `H2in` and every
`H_p` with exact band, `Hp_consistency` applied to the sentinel
`uf(NaN, NaN)` as `H_b` returns the sentinel again, so a grid point
rejected by `Mp_consistency` stays rejected. -/
theorem claim8_nan_propagation :
    ∀ H2in Hpn Hps : ℚ,
      Hp_consistency (Fl.val H2in) nanUF (uf (Fl.val Hpn) (Fl.val Hps)) = nanUF :=
  fun _ _ _ => rfl

/-- C10: `get_H2_bio` is strictly negative for positive inflow and
positive denominator, and is linear in its first argument. -/
theorem claim10_get_H2_bio_linear_negative :
    ∀ H2_in R_abb R_p : ℚ, 0 < H2_in → 0 < 1 + 0.25 * R_p * (1 + R_abb) →
      get_H2_bio H2_in R_abb R_p < 0 ∧
      ∀ c : ℚ, get_H2_bio (c * H2_in) R_abb R_p = c * get_H2_bio H2_in R_abb R_p := by
  intro H2_in R_abb R_p hpos hden
  constructor
  · rw [get_H2_bio]
    exact div_neg_of_neg_of_pos (neg_lt_zero.mpr hpos) hden
  · intro c
    rw [get_H2_bio, get_H2_bio]
    ring

/-- Witness for C10 at `H2_in = 1`, `R_abb = 0`, `R_p = 0`. -/
theorem claim10_witness :
    ((0 : ℚ) < 1) ∧ ((0 : ℚ) < 1 + 0.25 * 0 * (1 + 0)) ∧
    (get_H2_bio 1 0 0 < 0 ∧
      ∀ c : ℚ, get_H2_bio (c * 1) 0 0 = c * get_H2_bio 1 0 0) :=
  ⟨by norm_num, by norm_num,
    claim10_get_H2_bio_linear_negative 1 0 0 (by norm_num) (by norm_num)⟩

/-- C6: the four numeric functions are pure and deterministic; in this
embedding they are total functions of their arguments alone, so two calls
with equal arguments return equal results. -/
theorem claim6_functions_deterministic :
    (∀ a b c a2 b2 c2 : ℚ, a = a2 → b = b2 → c = c2 →
      get_H2_bio a b c = get_H2_bio a2 b2 c2) ∧
    (∀ (M M2 H K : UF) (r r2 u u2 : Fl), M = M2 → H = K → r = r2 → u = u2 →
      Mp_consistency M H r u = Mp_consistency M2 K r2 u2) ∧
    (∀ (x y : Fl) (v v2 p p2 : UF), x = y → v = v2 → p = p2 →
      Hp_consistency x v p = Hp_consistency y v2 p2) ∧
    (∀ a b c d a2 b2 c2 d2 : ℚ, a = a2 → b = b2 → c = c2 → d = d2 →
      criticalH2bio a b c d = criticalH2bio a2 b2 c2 d2) := by
  refine ⟨?_, ?_, ?_, ?_⟩ <;> intros <;> subst_vars <;> rfl

/-- Witness for C6 at concrete equal arguments. -/
theorem claim6_witness :
    ((1 : ℚ) = 1) ∧ get_H2_bio 1 2 3 = get_H2_bio 1 2 3 :=
  ⟨rfl, claim6_functions_deterministic.1 1 2 3 1 2 3 rfl rfl rfl⟩

/-- C9: on the overlap branch, the merged interval (before the final
conversion back to H2-consumption space) is exactly the intersection
`[B, T]` of the two input bands; it is contained in each input band, its
deviation `(T-B)/2` is strictly positive, and that deviation never
exceeds the half-width of either input band. -/
theorem claim9_merged_equals_intersection :
    (∀ Mpn Mps Hbn Hbs Rb Rabb N S B T : ℚ, Rb ≠ 0 →
      N = Hbn / Rb * (1 + Rabb) → S = |Hbs / Rb * (1 + Rabb)| →
      B = max (N - S) (-Mpn - Mps) → T = min (N + S) (-Mpn + Mps) → B < T →
      Mp_consistentM (uf (Fl.val Mpn) (Fl.val Mps)) (uf (Fl.val Hbn) (Fl.val Hbs))
          (Fl.val Rb) (Fl.val Rabb) =
        uf (Fl.val ((B + T) / 2)) (Fl.val ((T - B) / 2)) ∧
      (B + T) / 2 - (T - B) / 2 = B ∧ (B + T) / 2 + (T - B) / 2 = T ∧
      N - S ≤ B ∧ T ≤ N + S ∧ -Mpn - Mps ≤ B ∧ T ≤ -Mpn + Mps ∧
      0 < (T - B) / 2 ∧ (T - B) / 2 ≤ S ∧ (T - B) / 2 ≤ Mps) ∧
    (∀ H2in Hbn Hbs Hpn Hps B T : ℚ,
      B = max (H2in + Hbn - Hbs) (-Hpn - Hps) →
      T = min (H2in + Hbn + Hbs) (-Hpn + Hps) → B < T →
      Hp_merged (Fl.val H2in) (uf (Fl.val Hbn) (Fl.val Hbs))
          (uf (Fl.val Hpn) (Fl.val Hps)) =
        uf (Fl.val ((B + T) / 2)) (Fl.val ((T - B) / 2)) ∧
      (B + T) / 2 - (T - B) / 2 = B ∧ (B + T) / 2 + (T - B) / 2 = T ∧
      H2in + Hbn - Hbs ≤ B ∧ T ≤ H2in + Hbn + Hbs ∧
      -Hpn - Hps ≤ B ∧ T ≤ -Hpn + Hps ∧
      0 < (T - B) / 2 ∧ (T - B) / 2 ≤ Hbs ∧ (T - B) / 2 ≤ Hps) := by
  constructor
  · intro Mpn Mps Hbn Hbs Rb Rabb N S B T hRb hN hS hB hT hBT
    have hBge1 : N - S ≤ B := hB ▸ le_max_left _ _
    have hBge2 : -Mpn - Mps ≤ B := hB ▸ le_max_right _ _
    have hTle1 : T ≤ N + S := hT ▸ min_le_left _ _
    have hTle2 : T ≤ -Mpn + Mps := hT ▸ min_le_right _ _
    refine ⟨?_, by ring, by ring, hBge1, hTle1, hBge2, hTle2,
      by linarith, by linarith, by linarith⟩
    have hmid : (B + T) / 2 - B = (T - B) / 2 := by ring
    rw [Mp_consistentM_val Mpn Mps Hbn Hbs Rb Rabb B T hRb
        (by rw [hB, hN, hS]) (by rw [hT, hN, hS]),
      abs_of_nonneg (by linarith), hmid]
  · intro H2in Hbn Hbs Hpn Hps B T hB hT hBT
    have hBge1 : H2in + Hbn - Hbs ≤ B := hB ▸ le_max_left _ _
    have hBge2 : -Hpn - Hps ≤ B := hB ▸ le_max_right _ _
    have hTle1 : T ≤ H2in + Hbn + Hbs := hT ▸ min_le_left _ _
    have hTle2 : T ≤ -Hpn + Hps := hT ▸ min_le_right _ _
    refine ⟨?_, by ring, by ring, hBge1, hTle1, hBge2, hTle2,
      by linarith, by linarith, by linarith⟩
    have hmid : (B + T) / 2 - B = (T - B) / 2 := by ring
    rw [Hp_merged_val H2in Hbn Hbs Hpn Hps B T hB hT,
      abs_of_nonneg (by linarith), hmid]

/-- Witness for C9 at concrete inputs (`M_p = -2±1`, `H_b = 2±1`,
`R_b = 1`, `R_abb = 0`, intersection `[1, 3]`). -/
theorem claim9_witness :
    ((1 : ℚ) ≠ 0) ∧
    ((2 : ℚ) = 2 / 1 * (1 + 0)) ∧ ((1 : ℚ) = |(1 : ℚ) / 1 * (1 + 0)|) ∧
    ((1 : ℚ) = max ((2 : ℚ) - 1) (-(-2) - 1)) ∧
    ((3 : ℚ) = min ((2 : ℚ) + 1) (-(-2) + 1)) ∧ ((1 : ℚ) < 3) ∧
    (Mp_consistentM (uf (Fl.val (-2)) (Fl.val 1)) (uf (Fl.val 2) (Fl.val 1))
          (Fl.val 1) (Fl.val 0) =
        uf (Fl.val (((1 : ℚ) + 3) / 2)) (Fl.val (((3 : ℚ) - 1) / 2)) ∧
      ((1 : ℚ) + 3) / 2 - (3 - 1) / 2 = 1 ∧ ((1 : ℚ) + 3) / 2 + (3 - 1) / 2 = 3 ∧
      (2 : ℚ) - 1 ≤ 1 ∧ (3 : ℚ) ≤ 2 + 1 ∧ -(-2 : ℚ) - 1 ≤ 1 ∧ (3 : ℚ) ≤ -(-2) + 1 ∧
      (0 : ℚ) < (3 - 1) / 2 ∧ ((3 : ℚ) - 1) / 2 ≤ 1 ∧ ((3 : ℚ) - 1) / 2 ≤ 1) :=
  ⟨by norm_num, by norm_num, by norm_num, by norm_num, by norm_num, by norm_num,
    claim9_merged_equals_intersection.1 (-2) 1 2 1 1 0 2 1 1 3 (by norm_num)
      (by norm_num) (by norm_num) (by norm_num) (by norm_num) (by norm_num)⟩

/-- C7: the figure-generation sweep.  The `R_abb` grid of Fig5 has 100
points and the `H2in` grid has 10000 points, logspaced: their exponent
grids are uniformly spaced from -6 to 6 and from -5 to 5 respectively
(so the values run over `[1e-6, 1e6]` and `[1e-5, 1e5]`).  For every row
of the grid (each `R_abb` crossed with the whole `H2in` axis) the row
computation applies `get_H2_bio`, then `Mp_consistency` to its result,
then `Hp_consistency` to that result (wrapped in `abs`), in that order,
producing the row list. -/
theorem claim7_grid_sweep_pipeline :
    fig5RabbExp.length = 100 ∧ fig5H2inExp.length = 10000 ∧
    fig5H2inExp = (List.range 10000).map (fun (i : ℕ) => -5 + (i : ℚ) * 10 / 9999) ∧
    fig5RabbExp = (List.range 100).map (fun (i : ℕ) => -6 + (i : ℚ) * 12 / 99) ∧
    (∀ (CH4p H2pobs R_H2toCH4 : UF) (R_bio R_abb : Fl) (H2in : List Fl),
      figRow CH4p H2pobs R_H2toCH4 R_bio R_abb H2in =
        H2in.map (fun h =>
          (Hp_consistency h
            (Mp_consistency CH4p (get_H2_bio_u h R_abb R_H2toCH4) R_bio R_abb)
            H2pobs).abs)) := by
  refine ⟨?_, ?_, ?_, ?_, ?_⟩
  · rw [fig5RabbExp, logspaceExp, linspace_length]
  · rw [fig5H2inExp, logspaceExp, linspace_length]
  · rw [fig5H2inExp, logspaceExp, linspace]
    apply List.map_congr_left
    intro i _
    push_cast
    ring_nf
  · rw [fig5RabbExp, logspaceExp, linspace]
    apply List.map_congr_left
    intro i _
    push_cast
    ring_nf
  · intro CH4p H2pobs R_H2toCH4 R_bio R_abb H2in
    induction H2in with
    | nil => rfl
    | cons x xs ih =>
      simp only [figRow, List.map_cons, List.zip_cons_cons] at ih ⊢
      rw [List.cons.injEq]
      exact ⟨rfl, ih⟩
